import Mathlib

/-!
Verification of the b2b-data-miner contact-intelligence pipeline.

The Python sources under `src/` are shallowly embedded here:

* Python strings are Lean `String`s; all string operations used by the code
  (`str.lower`, `in`, `str.replace`, `str.split`, `re.sub` with the fixed
  character class `[\s\-\(\)]`, `str.format` with the `{domain}` placeholder)
  are implemented as structural recursions over `String.data`, so every
  definition evaluates by kernel reduction.  The inputs the pipeline handles
  are ASCII, so `str.lower` is modelled by ASCII lower-casing.
* Python dicts holding contact records are the `Contact` structure; absent
  keys are modelled by the same defaults `dict.get` supplies in the code.
* `urllib.parse.urlparse(url).netloc` is embedded as `netlocChars`: strip a
  valid `scheme:` head, then, if `//` follows, take the host up to the first
  of `/`, `?`, `#`.
* BeautifulSoup documents are the `Dom` inductive; `find_all`/`find` are
  pre-order traversals, and a class-lambda filter matches if some individual
  class string satisfies it.
* `merge_contacts` mutates dicts that are aliased by two maps, so it is
  embedded with an explicit arena: the maps store arena indices and the loop
  body updates the arena in place, which reproduces Python's reference
  semantics.
* `list(set(a) | set(b))` is modelled by `(a ++ b).dedup`; the claims about
  evidence URLs only ever compare these lists as sets.
-/

/-! ## ASCII character and string helpers (Python string semantics) -/

/-- Uppercase/lowercase ASCII pairs, used to model `str.lower`. -/
def upperLowerTable : List (Char × Char) :=
  [('A','a'), ('B','b'), ('C','c'), ('D','d'), ('E','e'), ('F','f'), ('G','g'),
   ('H','h'), ('I','i'), ('J','j'), ('K','k'), ('L','l'), ('M','m'), ('N','n'),
   ('O','o'), ('P','p'), ('Q','q'), ('R','r'), ('S','s'), ('T','t'), ('U','u'),
   ('V','v'), ('W','w'), ('X','x'), ('Y','y'), ('Z','z')]

/-- ASCII lower-casing of one character (model of Python `str.lower` per char). -/
def lowerChar (c : Char) : Char :=
  match upperLowerTable.find? (fun p => p.1 = c) with
  | some p => p.2
  | none => c

/-- Model of Python `s.lower()` for ASCII strings. -/
def pyLower (s : String) : String := ⟨s.data.map lowerChar⟩

/-- Model of Python `needle in hay` (substring test). -/
def listInfix (needle : List Char) : List Char → Bool
  | [] => needle.isPrefixOf []
  | c :: rest => needle.isPrefixOf (c :: rest) || listInfix needle rest

/-- Model of Python `needle in hay` on strings. -/
def pyIn (needle hay : String) : Bool := listInfix needle.data hay.data

/-- Model of Python `s.replace('www.', '')`: remove every occurrence of
`www.`, scanning left to right. -/
def removeWwwChars : List Char → List Char
  | 'w' :: 'w' :: 'w' :: '.' :: rest => removeWwwChars rest
  | c :: rest => c :: removeWwwChars rest
  | [] => []

/-- Model of Python `s.replace('www.', '')` on strings. -/
def removeWww (s : String) : String := ⟨removeWwwChars s.data⟩

/-- Model of Python `s.split(sep)` for a one-character separator. -/
def splitOnChar (sep : Char) : List Char → List (List Char)
  | [] => [[]]
  | c :: rest =>
    match splitOnChar sep rest with
    | h :: t => if c = sep then [] :: h :: t else (c :: h) :: t
    | [] => if c = sep then [[], []] else [[c]]

/-- Model of Python `email.split('@')[1]` (second segment, `''` when absent). -/
def secondAtSegment (s : String) : String :=
  ⟨(splitOnChar '@' s.data).getD 1 []⟩

/-! ## extractor.py : phone normalisation and validation -/

/-- Characters removed by `re.sub(r'[\s\-\(\)]', '', phone)` in
`normalize_phone`: ASCII whitespace, hyphen, parentheses. -/
def isPhoneStripChar (c : Char) : Bool :=
  c = ' ' || c = '\t' || c = '\n' || c = '\r' || c = '\x0b' || c = '\x0c' ||
  c = '-' || c = '(' || c = ')'

/-- Embedding of `extractor.normalize_phone`. -/
def normalize_phone (phone : String) : String :=
  ⟨phone.data.filter (fun c => !isPhoneStripChar c)⟩

/-- Embedding of `extractor.is_valid_phone`: reject normalised phones that are
shorter than 7 characters, consist only of `+`/`0`, or use a single distinct
character besides `+`. -/
def is_valid_phone (phone : String) : Bool :=
  let normalized := normalize_phone phone
  if normalized.data.length < 7 then false
  else if (normalized.data.filter (fun c => c != '+')).filter (fun c => c != '0') = [] then
    false
  else if (normalized.data.filter (fun c => c != '+')).dedup.length = 1 then false
  else true

/-! ### Helper lemmas for C9 -/

theorem dedup_const_of_all_eq {l : List Char} {d : Char} (hne : l ≠ [])
    (h : ∀ c ∈ l, c = d) : l.dedup = [d] := by
  induction l with
  | nil => exact absurd rfl hne
  | cons a t ih =>
    have ha : a = d := h a (List.mem_cons_self a t)
    subst ha
    cases t with
    | nil => simp
    | cons b t' =>
      have hmem : a ∈ b :: t' := by
        have hb : b = a := (h b (by simp)).trans (h a (by simp)).symm
        simp [hb]
      rw [List.dedup_cons_of_mem hmem]
      exact ih (by simp) (fun c hc => h c (List.mem_cons_of_mem a hc))

/-- C9: `is_valid_phone` rejects normalised phones shorter than 7 characters,
all-zero phones, and single-repeated-digit phones; on the four concrete
inputs of the spec it answers as stated, and `normalize_phone` maps
`+91-98765-43210` to `+919876543210`. -/
theorem is_valid_phone_rejects_junk :
    (∀ phone : String,
      ((normalize_phone phone).data.length < 7 ∨
       (∀ c ∈ (normalize_phone phone).data, c = '0') ∨
       (∃ d : Char, d.isDigit ∧ ∀ c ∈ (normalize_phone phone).data, c = d)) →
      is_valid_phone phone = false) ∧
    is_valid_phone "0000000" = false ∧
    is_valid_phone "1111111" = false ∧
    is_valid_phone "123" = false ∧
    is_valid_phone "+91-98765-43210" = true ∧
    normalize_phone "+91-98765-43210" = "+919876543210" := by
  refine ⟨?_, by decide, by decide, by decide, by decide, by decide⟩
  intro phone h
  unfold is_valid_phone
  set n := (normalize_phone phone).data with hn
  rcases h with hlen | hzero | ⟨d, hd, hrep⟩
  · simp only [← hn]
    rw [if_pos hlen]
  · by_cases hlen : n.length < 7
    · simp only [← hn]; rw [if_pos hlen]
    · have hfil : (n.filter (fun c => c != '+')).filter (fun c => c != '0') = [] := by
        rw [List.filter_eq_nil_iff]
        intro c hc
        have hc1 : c ∈ n.filter (fun c => c != '+') := hc
        have hc2 : c ∈ n := List.mem_of_mem_filter hc1
        have : c = '0' := hzero c hc2
        simp [this]
      simp only [← hn]
      rw [if_neg hlen, if_pos hfil]
  · by_cases hlen : n.length < 7
    · simp only [← hn]; rw [if_pos hlen]
    · have hne : n ≠ [] := by
        intro hemp
        rw [hemp] at hlen
        simp at hlen
      have hdplus : d ≠ '+' := by
        intro hdp
        rw [hdp] at hd
        exact absurd hd (by decide)
      have hfil1 : n.filter (fun c => c != '+') = n := by
        rw [List.filter_eq_self]
        intro c hc
        have : c = d := hrep c hc
        simp [this, hdplus]
      by_cases hzero' : d = '0'
      · have hfil : (n.filter (fun c => c != '+')).filter (fun c => c != '0') = [] := by
          rw [hfil1, List.filter_eq_nil_iff]
          intro c hc
          have : c = d := hrep c hc
          simp [this, hzero']
        simp only [← hn]
        rw [if_neg hlen, if_pos hfil]
      · have hded : (n.filter (fun c => c != '+')).dedup.length = 1 := by
          rw [hfil1, dedup_const_of_all_eq hne hrep]
          rfl
        by_cases hfil : (n.filter (fun c => c != '+')).filter (fun c => c != '0') = []
        · simp only [← hn]
          rw [if_neg hlen, if_pos hfil]
        · simp only [← hn]
          rw [if_neg hlen, if_neg hfil, if_pos hded]

/-- C9 witness: the rejection rule applied to the concrete phone `0000000`. -/
theorem is_valid_phone_rejects_junk_witness : is_valid_phone "0000000" = false :=
  is_valid_phone_rejects_junk.1 "0000000" (Or.inr (Or.inl (by decide)))

/-! ## Data model : contact records -/

/-- A contact dict as used throughout `extractor.py` / `evaluator.py`.
Absent dict keys are modelled by the defaults that `dict.get` supplies in the
code (`''`, `[]`, and `0` via `confidence.getD 0`). -/
structure Contact where
  email : String := ""
  phone : String := ""
  role : String := ""
  evidence_urls : List String := []
  confidence : Option Int := none
  confidence_reasons : List String := []
deriving Repr, DecidableEq, Inhabited

/-! ## evaluator.py : confidence scoring and acceptance -/

/-- Contact confidence threshold from `evaluator.py`. -/
def CONTACT_CONFIDENCE_THRESHOLD : Int := 50

/-- URL fetch threshold from `evaluator.py`. -/
def URL_FETCH_THRESHOLD : Int := 40

/-- The email-on-official-domain test inside `calculate_contact_confidence`:
`email.split('@')[1].lower()` (or `''` without `@`) must contain, or be
contained in, `company_domain.lower().replace('www.', '')`. -/
def emailDomainOfficial (email company_domain : String) : Bool :=
  let email_domain := if pyIn "@" email then pyLower (secondAtSegment email) else ""
  let company_domain_clean := removeWww (pyLower company_domain)
  pyIn company_domain_clean email_domain || pyIn email_domain company_domain_clean

/-- Embedding of `evaluator.calculate_contact_confidence`.  Returns the score
together with the contact updated in place (the Python function writes
`confidence` and `confidence_reasons` onto the dict and returns the score). -/
def calculate_contact_confidence (contact : Contact) (evidence_urls : List String)
    (company_domain : String) : Int × Contact :=
  let acc : Int × List String := (0, [])
  let acc := if contact.email ≠ "" then
      (if emailDomainOfficial contact.email company_domain then
        (acc.1 + 25, acc.2 ++ ["Email on official domain"]) else acc)
    else acc
  let acc := if contact.phone ≠ "" then
      (acc.1 + 15, acc.2 ++ ["Phone found on official site"]) else acc
  let acc := if contact.role ≠ "" then
      (acc.1 + 25, acc.2 ++ ["Role explicitly stated"]) else acc
  let acc := if 2 ≤ evidence_urls.length then
      (acc.1 + 20, acc.2 ++ ["Found on " ++ toString evidence_urls.length ++ " pages"]) else acc
  let acc := if 2 ≤ evidence_urls.length then
      (acc.1 + 15, acc.2 ++ ["Cross-source confirmation"]) else acc
  (acc.1, { contact with confidence := some acc.1, confidence_reasons := acc.2 })

/-- Embedding of `evaluator.should_accept_contact`. -/
def should_accept_contact (contact : Contact) : Bool :=
  decide (CONTACT_CONFIDENCE_THRESHOLD ≤ contact.confidence.getD 0)

/-- A contact on which every confidence signal fires. -/
def allSignalsContact : Contact :=
  { email := "ceo@acme.com", phone := "+919876543210", role := "pms",
    evidence_urls := ["https://acme.com/a", "https://acme.com/b"] }

/-- C3: the confidence score is exactly the sum of the five signal bonuses,
where the `+15` cross-source bonus re-tests `len(evidence_urls) >= 2` (the
same condition as the `+20` bonus, not a distinct-source condition); the
score never exceeds 100, and a contact with all signals firing scores 100. -/
theorem calculate_contact_confidence_signal_sum :
    (∀ (contact : Contact) (ev : List String) (cd : String),
      (calculate_contact_confidence contact ev cd).1 =
        (if contact.email ≠ "" ∧ emailDomainOfficial contact.email cd then 25 else 0) +
        (if contact.phone ≠ "" then 15 else 0) +
        (if contact.role ≠ "" then 25 else 0) +
        (if 2 ≤ ev.length then 20 else 0) +
        (if 2 ≤ ev.length then 15 else 0) ∧
      (calculate_contact_confidence contact ev cd).1 ≤ 100) ∧
    (calculate_contact_confidence allSignalsContact
      ["https://acme.com/a", "https://acme.com/b"] "acme.com").1 = 100 := by
  refine ⟨fun contact ev cd => ⟨?_, ?_⟩, by decide⟩
  · simp only [calculate_contact_confidence]
    split_ifs <;> simp_all
  · simp only [calculate_contact_confidence]
    split_ifs <;> norm_num

/-- C4: a contact is accepted exactly when its confidence (0 when absent) is
at least 50; the 85 threshold from the orchestrator docstring is not the one
implemented. -/
theorem should_accept_contact_threshold_is_50 :
    (∀ c : Contact, should_accept_contact c = true ↔ 50 ≤ c.confidence.getD 0) ∧
    ¬(∀ c : Contact, should_accept_contact c = true ↔ 85 ≤ c.confidence.getD 0) := by
  constructor
  · intro c
    simp [should_accept_contact, CONTACT_CONFIDENCE_THRESHOLD]
  · intro h
    have h60 := (h { confidence := some 60 }).mp (by decide)
    simp at h60

/-- C4 witness: a contact with confidence 60 is accepted by the 50 threshold. -/
theorem should_accept_contact_threshold_is_50_witness :
    should_accept_contact { confidence := some 60 } = true :=
  (should_accept_contact_threshold_is_50.1 { confidence := some 60 }).mpr (by decide)

/-- C10: `calculate_contact_confidence` leaves `email`, `phone`, `role` and
`evidence_urls` unchanged, writes only `confidence` and
`confidence_reasons`, and returns exactly the confidence it wrote. -/
theorem calculate_contact_confidence_frame :
    ∀ (contact : Contact) (ev : List String) (cd : String),
      (calculate_contact_confidence contact ev cd).2.email = contact.email ∧
      (calculate_contact_confidence contact ev cd).2.phone = contact.phone ∧
      (calculate_contact_confidence contact ev cd).2.role = contact.role ∧
      (calculate_contact_confidence contact ev cd).2.evidence_urls = contact.evidence_urls ∧
      (calculate_contact_confidence contact ev cd).2.confidence =
        some (calculate_contact_confidence contact ev cd).1 :=
  fun _ _ _ => ⟨rfl, rfl, rfl, rfl, rfl⟩

/-! ## evaluator.py : merge_contacts

The Python function keeps two dicts, `email_map` and `phone_map`, whose
values are (aliased) references to the same contact dicts.  The embedding
uses an arena of contacts: both maps store arena indices, and the loop body
updates the arena entry in place, exactly mirroring Python's mutation of the
shared dict. -/

/-- State of the `merge_contacts` loop. -/
structure MergeState where
  arena : List Contact
  emailMap : List (String × Nat)
  phoneMap : List (String × Nat)
deriving Repr, DecidableEq

/-- Python dict lookup (keys are unique, so first match suffices). -/
def lookupIdx : List (String × Nat) → String → Option Nat
  | [], _ => none
  | (k, v) :: rest, key => if k = key then some v else lookupIdx rest key

/-- Model of Python `list(set(a) | set(b))`, up to element order. -/
def listSetUnion (a b : List String) : List String := (a ++ b).dedup

/-- The normalised phone key of the `merge_contacts` loop:
`if phone: phone = re.sub(r'[\s\-\(\)]', '', phone)`. -/
def mergePhoneKey (phone : String) : String :=
  if phone ≠ "" then normalize_phone phone else phone

/-- One iteration of the `merge_contacts` grouping loop. -/
def mergeStep (st : MergeState) (contact : Contact) : MergeState :=
  let email := pyLower contact.email
  let phone := mergePhoneKey contact.phone
  let mergedIdx : Option Nat :=
    if email ≠ "" then
      match lookupIdx st.emailMap email with
      | some i => some i
      | none => if phone ≠ "" then lookupIdx st.phoneMap phone else none
    else if phone ≠ "" then lookupIdx st.phoneMap phone else none
  match mergedIdx with
  | some i =>
    let g := st.arena.getD i default
    let g := { g with evidence_urls := listSetUnion g.evidence_urls contact.evidence_urls }
    let g := if contact.role ≠ "" ∧ g.role = "" then { g with role := contact.role } else g
    let g := if email ≠ "" ∧ g.email = "" then { g with email := email } else g
    let g := if phone ≠ "" ∧ g.phone = "" then { g with phone := phone } else g
    { st with arena := st.arena.set i g }
  | none =>
    let idx := st.arena.length
    { arena := st.arena ++ [contact]
      emailMap := if email ≠ "" then st.emailMap ++ [(email, idx)] else st.emailMap
      phoneMap := if phone ≠ "" then st.phoneMap ++ [(phone, idx)] else st.phoneMap }

/-- The deduplication key of the final pass of `merge_contacts`:
`(contact.get('email','').lower(), normalised phone)`. -/
def contactKey (c : Contact) : String × String :=
  (pyLower c.email, mergePhoneKey c.phone)

/-- The final `seen`-set deduplication pass of `merge_contacts`. -/
def dedupByKeyAux (seen : List (String × String)) : List Contact → List Contact
  | [] => []
  | c :: cs =>
    if contactKey c ∈ seen then dedupByKeyAux seen cs
    else c :: dedupByKeyAux (contactKey c :: seen) cs

/-- Embedding of `evaluator.merge_contacts`.  Note that the returned list is
built from `email_map.values()` only, exactly as in the source. -/
def merge_contacts (contacts : List Contact) : List Contact :=
  let st := contacts.foldl mergeStep ⟨[], [], []⟩
  let all_contacts := st.emailMap.map (fun p => st.arena.getD p.2 default)
  dedupByKeyAux [] all_contacts

/-- C1: a phone-only fragment (empty email, non-empty phone) is registered in
`phone_map` but the output of `merge_contacts` is built from
`email_map.values()` alone, so the fragment is silently dropped: the merge of
a single phone-only contact is empty, although the spec promises a phone-only
merged record. -/
theorem merge_contacts_drops_phone_only :
    merge_contacts [{ phone := "1234567", evidence_urls := ["https://x.com/contact"] }] = [] ∧
    (([({ phone := "1234567", evidence_urls := ["https://x.com/contact"] } : Contact)].foldl
        mergeStep ⟨[], [], []⟩).phoneMap = [("1234567", 0)]) := by
  constructor
  · decide
  · decide

/-! ### Merge idempotence infrastructure (C6)

`merge_contacts` applied to fresh contacts (all keys unseen) just registers
them one by one; applied a second time to the same contacts it finds each of
them again and unions its evidence with itself.  The lemmas below compute
both passes in closed form. -/

/-- Lower-cased email keys of a contact list, in order. -/
def emailKeys (M : List Contact) : List String := M.map (fun c => pyLower c.email)

/-- Non-empty normalised phone keys of a contact list, in order. -/
def phoneKeys (M : List Contact) : List String :=
  (M.filter (fun c => mergePhoneKey c.phone ≠ "")).map (fun c => mergePhoneKey c.phone)

/-- The email map built by registering `M` starting at arena index `i`. -/
def emapFrom (i : Nat) : List Contact → List (String × Nat)
  | [] => []
  | c :: cs => (pyLower c.email, i) :: emapFrom (i + 1) cs

/-- The phone map built by registering `M` starting at arena index `i`. -/
def pmapFrom (i : Nat) : List Contact → List (String × Nat)
  | [] => []
  | c :: cs =>
    if mergePhoneKey c.phone ≠ "" then (mergePhoneKey c.phone, i) :: pmapFrom (i + 1) cs
    else pmapFrom (i + 1) cs

/-- Re-merging a contact with itself unions its evidence with itself. -/
def updSelfEvidence (c : Contact) : Contact :=
  { c with evidence_urls := listSetUnion c.evidence_urls c.evidence_urls }

theorem contactKey_updSelfEvidence (c : Contact) :
    contactKey (updSelfEvidence c) = contactKey c := rfl

theorem pyLower_eq_empty_iff {s : String} : pyLower s = "" ↔ s = "" := by
  cases s with
  | mk data => cases data <;> simp [pyLower, String.ext_iff]

theorem mergePhoneKey_empty : mergePhoneKey "" = "" := rfl

theorem emapFrom_append (A B : List Contact) (i : Nat) :
    emapFrom i (A ++ B) = emapFrom i A ++ emapFrom (i + A.length) B := by
  induction A generalizing i with
  | nil => simp [emapFrom]
  | cons a A ih =>
    have harith : i + 1 + A.length = i + (A.length + 1) := by omega
    simp only [List.cons_append, emapFrom, List.length_cons, List.append_eq]
    rw [ih, harith]

theorem pmapFrom_append (A B : List Contact) (i : Nat) :
    pmapFrom i (A ++ B) = pmapFrom i A ++ pmapFrom (i + A.length) B := by
  induction A generalizing i with
  | nil => simp [pmapFrom]
  | cons a A ih =>
    have harith : i + 1 + A.length = i + (A.length + 1) := by omega
    by_cases h : mergePhoneKey a.phone ≠ ""
    · simp only [List.cons_append, pmapFrom, if_pos h, List.length_cons, List.append_eq]
      rw [ih, harith]
    · simp only [List.cons_append, pmapFrom, if_neg h, List.length_cons, List.append_eq]
      rw [ih, harith]

theorem lookupIdx_append (xs ys : List (String × Nat)) (k : String) :
    lookupIdx (xs ++ ys) k =
      match lookupIdx xs k with
      | some v => some v
      | none => lookupIdx ys k := by
  induction xs with
  | nil => simp [lookupIdx]
  | cons p xs ih =>
    obtain ⟨k', v⟩ := p
    by_cases h : k' = k <;> simp [lookupIdx, h, ih]

theorem lookupIdx_eq_none (xs : List (String × Nat)) (k : String)
    (h : k ∉ xs.map Prod.fst) : lookupIdx xs k = none := by
  induction xs with
  | nil => rfl
  | cons p xs ih =>
    obtain ⟨k', v⟩ := p
    simp only [List.map_cons, List.mem_cons] at h
    push_neg at h
    simp only [lookupIdx]
    rw [if_neg (fun hh : k' = k => h.1 hh.symm)]
    exact ih h.2

theorem emapFrom_keys (M : List Contact) (i : Nat) :
    (emapFrom i M).map Prod.fst = emailKeys M := by
  induction M generalizing i with
  | nil => rfl
  | cons c M ih => simp [emapFrom, emailKeys, ih, List.map_cons]

theorem pmapFrom_keys (M : List Contact) (i : Nat) :
    (pmapFrom i M).map Prod.fst = phoneKeys M := by
  induction M generalizing i with
  | nil => rfl
  | cons c M ih =>
    by_cases h : mergePhoneKey c.phone ≠ "" <;>
      simp [pmapFrom, phoneKeys, h, ih, List.filter_cons]

theorem emailKeys_append (A B : List Contact) :
    emailKeys (A ++ B) = emailKeys A ++ emailKeys B := by
  simp [emailKeys]

theorem phoneKeys_append (A B : List Contact) :
    phoneKeys (A ++ B) = phoneKeys A ++ phoneKeys B := by
  simp [phoneKeys, List.filter_append]

theorem getD_append_length (xs : List Contact) (y : Contact) (ys : List Contact) :
    (xs ++ y :: ys).getD xs.length default = y := by
  induction xs with
  | nil => rfl
  | cons x xs ih =>
    simp only [List.cons_append, List.length_cons, List.getD_cons_succ]
    exact ih

theorem set_append_length (xs : List Contact) (y z : Contact) (ys : List Contact) :
    (xs ++ y :: ys).set xs.length z = xs ++ z :: ys := by
  induction xs with
  | nil => rfl
  | cons x xs ih => simp [ih]

theorem getD_eq_headD_drop (F : List Contact) (i : Nat) :
    F.getD i default = (F.drop i).headD default := by
  induction F generalizing i with
  | nil => cases i <;> rfl
  | cons x F ih =>
    cases i with
    | zero => rfl
    | succ n =>
      simp only [List.getD_cons_succ, List.drop_succ_cons]
      exact ih n

theorem lookupIdx_emapFrom_at (A : List Contact) (b : Contact) (B : List Contact)
    (hnd : (emailKeys (A ++ b :: B)).Nodup) :
    lookupIdx (emapFrom 0 (A ++ b :: B)) (pyLower b.email) = some A.length := by
  rw [emapFrom_append, lookupIdx_append]
  have hnotin : pyLower b.email ∉ (emapFrom 0 A).map Prod.fst := by
    rw [emapFrom_keys]
    rw [emailKeys_append] at hnd
    have hdisj := (List.nodup_append.mp hnd).2.2
    intro hmem
    exact hdisj hmem (by simp [emailKeys])
  rw [lookupIdx_eq_none _ _ hnotin]
  simp [emapFrom, lookupIdx]

/-- Evaluation of `mergeStep` when neither key of the contact is registered:
the contact becomes a new group, registered under its non-empty keys. -/
theorem mergeStep_fresh (arena : List Contact) (em pm : List (String × Nat)) (c : Contact)
    (he : pyLower c.email ≠ "")
    (hle : lookupIdx em (pyLower c.email) = none)
    (hlp : mergePhoneKey c.phone ≠ "" → lookupIdx pm (mergePhoneKey c.phone) = none) :
    mergeStep ⟨arena, em, pm⟩ c =
      ⟨arena ++ [c],
       em ++ [(pyLower c.email, arena.length)],
       if mergePhoneKey c.phone ≠ "" then
         pm ++ [(mergePhoneKey c.phone, arena.length)]
       else pm⟩ := by
  by_cases hp : mergePhoneKey c.phone ≠ ""
  · simp only [mergeStep, if_pos he, if_pos hp, hle, hlp hp]
  · simp only [mergeStep, if_pos he, if_neg hp, hle]

/-- Evaluation of `mergeStep` when the contact's own email key is registered
and points at the contact itself (as in the second pass over an
already-merged list): only the evidence of that group changes. -/
theorem mergeStep_found_self (arena : List Contact) (em pm : List (String × Nat))
    (c : Contact) (i : Nat)
    (hce : c.email ≠ "")
    (hle : lookupIdx em (pyLower c.email) = some i)
    (hg : arena.getD i default = c) :
    mergeStep ⟨arena, em, pm⟩ c = ⟨arena.set i (updSelfEvidence c), em, pm⟩ := by
  have he : pyLower c.email ≠ "" := fun hh => hce (pyLower_eq_empty_iff.mp hh)
  have hrole : ¬(c.role ≠ "" ∧ c.role = "") := fun hh => hh.1 hh.2
  have hemail : ¬(pyLower c.email ≠ "" ∧ c.email = "") := fun hh => hce hh.2
  have hphone : ¬(mergePhoneKey c.phone ≠ "" ∧ c.phone = "") := by
    intro hh
    apply hh.1
    rw [hh.2]
    rfl
  simp only [mergeStep, if_pos he, hle, hg, updSelfEvidence, if_neg hrole, if_neg hemail,
    if_neg hphone]

/-- First pass: merging contacts whose keys are all fresh and pairwise
distinct registers them one after another. -/
theorem foldl_mergeStep_fresh :
    ∀ (R P : List Contact),
    (∀ c ∈ P ++ R, c.email ≠ "") →
    (emailKeys (P ++ R)).Nodup →
    (phoneKeys (P ++ R)).Nodup →
    R.foldl mergeStep ⟨P, emapFrom 0 P, pmapFrom 0 P⟩ =
      ⟨P ++ R, emapFrom 0 (P ++ R), pmapFrom 0 (P ++ R)⟩ := by
  intro R
  induction R with
  | nil =>
    intro P h1 h2 h3
    simp
  | cons r R ih =>
    intro P h1 h2 h3
    have hre : r.email ≠ "" := h1 r (by simp)
    have he : pyLower r.email ≠ "" := fun hh => hre (pyLower_eq_empty_iff.mp hh)
    have hnotinE : pyLower r.email ∉ (emapFrom 0 P).map Prod.fst := by
      rw [emapFrom_keys]
      rw [emailKeys_append] at h2
      have hdisj := (List.nodup_append.mp h2).2.2
      intro hmem
      exact hdisj hmem (by simp [emailKeys])
    have hnotinP : mergePhoneKey r.phone ≠ "" →
        lookupIdx (pmapFrom 0 P) (mergePhoneKey r.phone) = none := by
      intro hp
      apply lookupIdx_eq_none
      rw [pmapFrom_keys]
      rw [phoneKeys_append] at h3
      have hdisj := (List.nodup_append.mp h3).2.2
      intro hmem
      apply hdisj hmem
      simp [phoneKeys, List.filter_cons, if_pos hp]
    rw [List.foldl_cons,
      mergeStep_fresh P (emapFrom 0 P) (pmapFrom 0 P) r he
        (lookupIdx_eq_none _ _ hnotinE) hnotinP]
    have hemap : emapFrom 0 P ++ [(pyLower r.email, P.length)] = emapFrom 0 (P ++ [r]) := by
      rw [emapFrom_append]
      simp [emapFrom]
    have hpmap : (if mergePhoneKey r.phone ≠ "" then
        pmapFrom 0 P ++ [(mergePhoneKey r.phone, P.length)] else pmapFrom 0 P) =
        pmapFrom 0 (P ++ [r]) := by
      rw [pmapFrom_append]
      by_cases hp : mergePhoneKey r.phone ≠ ""
      · simp [pmapFrom, if_pos hp]
      · simp [pmapFrom, if_neg hp]
    rw [hemap, hpmap]
    have hassoc : (P ++ [r]) ++ R = P ++ r :: R := by simp
    rw [← hassoc] at h1 h2 h3
    rw [← hassoc]
    exact ih (P ++ [r]) h1 h2 h3

/-- Second pass: re-merging an already-registered list into its own state
finds each contact under its email key and unions its evidence with itself. -/
theorem foldl_mergeStep_self :
    ∀ (B A M : List Contact), M = A ++ B →
    (∀ c ∈ M, c.email ≠ "") →
    (emailKeys M).Nodup →
    B.foldl mergeStep ⟨A.map updSelfEvidence ++ B, emapFrom 0 M, pmapFrom 0 M⟩ =
      ⟨M.map updSelfEvidence, emapFrom 0 M, pmapFrom 0 M⟩ := by
  intro B
  induction B with
  | nil =>
    intro A M hM h1 h2
    subst hM
    simp
  | cons b B ih =>
    intro A M hM h1 h2
    have hbe : b.email ≠ "" := h1 b (by rw [hM]; simp)
    have hlookup : lookupIdx (emapFrom 0 M) (pyLower b.email) = some A.length := by
      subst hM
      exact lookupIdx_emapFrom_at A b B h2
    have hget : (A.map updSelfEvidence ++ b :: B).getD A.length default = b := by
      have hlen : (A.map updSelfEvidence).length = A.length := by simp
      rw [← hlen]
      exact getD_append_length _ _ _
    rw [List.foldl_cons,
      mergeStep_found_self (A.map updSelfEvidence ++ b :: B) (emapFrom 0 M) (pmapFrom 0 M)
        b A.length hbe hlookup hget]
    have hset : (A.map updSelfEvidence ++ b :: B).set A.length (updSelfEvidence b) =
        (A ++ [b]).map updSelfEvidence ++ B := by
      have hlen : (A.map updSelfEvidence).length = A.length := by simp
      rw [← hlen, set_append_length]
      simp
    rw [hset]
    exact ih (A ++ [b]) M (by rw [hM]; simp) h1 h2

/-- Reading the arena back through the email map yields the arena itself. -/
theorem emapFrom_map_getD :
    ∀ (R : List Contact) (i : Nat) (F : List Contact),
    F.drop i = R.map updSelfEvidence →
    (emapFrom i R).map (fun p => F.getD p.2 default) = R.map updSelfEvidence := by
  intro R
  induction R with
  | nil => intro i F h; rfl
  | cons c R ih =>
    intro i F h
    have h0 : F.getD i default = updSelfEvidence c := by
      rw [getD_eq_headD_drop, h]
      rfl
    have h1 : F.drop (i + 1) = R.map updSelfEvidence := by
      have hd : F.drop (i + 1) = (F.drop i).drop 1 := by
        rw [List.drop_drop]
      rw [hd, h]
      rfl
    simp only [emapFrom, List.map_cons, h0, ih (i + 1) F h1]

/-- The final deduplication pass keeps a list whose keys are fresh. -/
theorem dedupByKeyAux_nodup :
    ∀ (L : List Contact) (seen : List (String × String)),
    (L.map contactKey).Nodup →
    (∀ c ∈ L, contactKey c ∉ seen) →
    dedupByKeyAux seen L = L := by
  intro L
  induction L with
  | nil => intro seen h1 h2; rfl
  | cons c L ih =>
    intro seen h1 h2
    have hc : contactKey c ∉ seen := h2 c (by simp)
    have hhead : contactKey c ∉ L.map contactKey := by
      simp only [List.map_cons, List.nodup_cons] at h1
      exact h1.1
    simp only [dedupByKeyAux, if_neg hc]
    rw [ih (contactKey c :: seen) (by simp only [List.map_cons, List.nodup_cons] at h1; exact h1.2)]
    intro c' hc'
    simp only [List.mem_cons]
    push_neg
    constructor
    · intro hkey
      exact hhead (hkey ▸ List.mem_map_of_mem contactKey hc')
    · exact h2 c' (List.mem_cons_of_mem c hc')

/-- C6 (amended): self-merge of an already-merged list is stable provided the
merged list carries no duplicate keys — all emails non-empty and pairwise
distinct (lower-cased) and the non-empty normalised phones pairwise
distinct.  Then merging `merge_contacts L ++ merge_contacts L` preserves the
set of `(lower-cased email, normalised phone)` keys, and each resulting
contact keeps the same evidence-URL set. -/
theorem merge_contacts_self_merge_stable
    (L : List Contact)
    (h1 : ∀ c ∈ merge_contacts L, c.email ≠ "")
    (h2 : (emailKeys (merge_contacts L)).Nodup)
    (h3 : (phoneKeys (merge_contacts L)).Nodup) :
    (∀ k : String × String,
      k ∈ (merge_contacts (merge_contacts L ++ merge_contacts L)).map contactKey ↔
      k ∈ (merge_contacts L).map contactKey) ∧
    (∀ c₂ ∈ merge_contacts (merge_contacts L ++ merge_contacts L),
      ∃ c ∈ merge_contacts L, contactKey c₂ = contactKey c ∧
        ∀ u, (u ∈ c₂.evidence_urls ↔ u ∈ c.evidence_urls)) := by
  set M := merge_contacts L with hMdef
  have hupdkeys : (M.map updSelfEvidence).map contactKey = M.map contactKey := by
    rw [List.map_map]
    apply List.map_congr_left
    intro c _
    exact contactKey_updSelfEvidence c
  have hkeysNodup : (M.map contactKey).Nodup := by
    apply List.Nodup.of_map Prod.fst
    rw [List.map_map]
    exact h2
  have hmain : merge_contacts (M ++ M) = M.map updSelfEvidence := by
    simp only [merge_contacts]
    rw [List.foldl_append]
    have hfirst : M.foldl mergeStep ⟨[], [], []⟩ = ⟨M, emapFrom 0 M, pmapFrom 0 M⟩ := by
      simpa using foldl_mergeStep_fresh M [] (by simpa using h1) (by simpa using h2)
        (by simpa using h3)
    have hsecond : M.foldl mergeStep ⟨M, emapFrom 0 M, pmapFrom 0 M⟩ =
        ⟨M.map updSelfEvidence, emapFrom 0 M, pmapFrom 0 M⟩ := by
      have := foldl_mergeStep_self M [] M rfl h1 h2
      simpa using this
    rw [hfirst, hsecond]
    dsimp only
    rw [emapFrom_map_getD M 0 (M.map updSelfEvidence) (by simp)]
    apply dedupByKeyAux_nodup
    · rw [hupdkeys]
      exact hkeysNodup
    · intro c _
      simp
  constructor
  · intro k
    rw [hmain, hupdkeys]
  · intro c₂ hc₂
    rw [hmain] at hc₂
    obtain ⟨c, hcM, hc2eq⟩ := List.mem_map.mp hc₂
    refine ⟨c, hcM, ?_, ?_⟩
    · rw [← hc2eq]
      exact contactKey_updSelfEvidence c
    · intro u
      rw [← hc2eq]
      simp [updSelfEvidence, listSetUnion, List.mem_dedup]

/-- A contact list on which `merge_contacts` produces two groups that share a
normalised phone key: the phone backfilled onto the first group is never
registered in `phone_map`, so the second group later registers the same
phone. -/
def idempotenceBreaker : List Contact :=
  [{ email := "a@x.com", evidence_urls := ["u1"] },
   { email := "a@x.com", phone := "123-4567", evidence_urls := ["u2"] },
   { email := "b@x.com", phone := "1234567", evidence_urls := ["u3"] }]

/-- C6 counterexample: merging the self-concatenation of an already-merged
list can lose keys, so merge is not idempotent for every input list.  On
`idempotenceBreaker` the merged list has key `("b@x.com", "1234567")`, but
re-merging the concatenation with itself collapses the two groups sharing
the phone `1234567` and the key disappears. -/
theorem merge_contacts_not_idempotent :
    ("b@x.com", "1234567") ∈ (merge_contacts idempotenceBreaker).map contactKey ∧
    ("b@x.com", "1234567") ∉
      (merge_contacts
        (merge_contacts idempotenceBreaker ++ merge_contacts idempotenceBreaker)).map
        contactKey := by
  constructor
  · decide
  · decide

/-- A two-contact merged list with distinct email and phone keys. -/
def mergedOncePair : List Contact :=
  [{ email := "a@x.com", phone := "111-2223334", evidence_urls := ["u1"] },
   { email := "b@y.com", evidence_urls := ["u2"] }]

/-- C6 witness: the stability theorem applied to a concrete merged list with
distinct keys. -/
theorem merge_contacts_self_merge_stable_witness :
    ((∀ c ∈ merge_contacts mergedOncePair, c.email ≠ "") ∧
     (emailKeys (merge_contacts mergedOncePair)).Nodup ∧
     (phoneKeys (merge_contacts mergedOncePair)).Nodup) ∧
    ((∀ k : String × String,
        k ∈ (merge_contacts
              (merge_contacts mergedOncePair ++ merge_contacts mergedOncePair)).map
              contactKey ↔
        k ∈ (merge_contacts mergedOncePair).map contactKey) ∧
     (∀ c₂ ∈ merge_contacts (merge_contacts mergedOncePair ++ merge_contacts mergedOncePair),
        ∃ c ∈ merge_contacts mergedOncePair, contactKey c₂ = contactKey c ∧
          ∀ u, (u ∈ c₂.evidence_urls ↔ u ∈ c.evidence_urls))) :=
  ⟨⟨by decide, by decide, by decide⟩,
   merge_contacts_self_merge_stable mergedOncePair (by decide) (by decide) (by decide)⟩

/-! ## extractor.py : contact assembly

`extract_contacts_from_page` first computes `emails = extract_emails(html)`,
`phones = extract_phones(html)` and `role = extract_explicit_role(text)` and
then assembles contact dicts from those lists (lines 186-227).  The
assembly, which is what C2 is about, is embedded below over the extracted
lists; the regex/BeautifulSoup extraction that produces them is the input
boundary of the embedding. -/

/-- The `for i, email in enumerate(emails)` loop of the paired branch:
each email is paired with `phones[i] if i < len(phones) else ''`. -/
def pairEmails (phones : List String) (role url : String) : Nat → List String → List Contact
  | _, [] => []
  | i, e :: es =>
    { email := e, phone := phones.getD i "", role := role, evidence_urls := [url] } ::
      pairEmails phones role url (i + 1) es

/-- Embedding of the contact-assembly stage of
`extractor.extract_contacts_from_page`, taking the already-extracted email
list, phone list and role. -/
def extract_contacts_from_page (emails phones : List String) (role url : String) :
    List Contact :=
  if emails ≠ [] ∧ phones ≠ [] then
    pairEmails phones role url 0 emails ++
      (if emails.length < phones.length then
        (phones.drop emails.length).map
          (fun p => { email := "", phone := p, role := role, evidence_urls := [url] })
      else [])
  else if emails ≠ [] then
    emails.map (fun e => { email := e, phone := "", role := role, evidence_urls := [url] })
  else if phones ≠ [] then
    phones.map (fun p => { email := "", phone := p, role := role, evidence_urls := [url] })
  else []

theorem pairEmails_map_email (phones : List String) (role url : String) :
    ∀ (es : List String) (i : Nat),
    (pairEmails phones role url i es).map (fun c => c.email) = es := by
  intro es
  induction es with
  | nil => intro i; rfl
  | cons e es ih => intro i; simp [pairEmails, ih]

theorem pairEmails_length (phones : List String) (role url : String) :
    ∀ (es : List String) (i : Nat),
    (pairEmails phones role url i es).length = es.length := by
  intro es
  induction es with
  | nil => intro i; rfl
  | cons e es ih => intro i; simp [pairEmails, ih]

theorem pairEmails_phone_empty_of_ge (phones : List String) (role url : String) :
    ∀ (es : List String) (i : Nat), phones.length ≤ i →
    ∀ c ∈ pairEmails phones role url i es, c.phone = "" := by
  intro es
  induction es with
  | nil => intro i _ c hc; cases hc
  | cons e es ih =>
    intro i hi c hc
    cases hc with
    | head => simp [List.getD_eq_default, List.getElem?_eq_none hi]
    | tail _ h => exact ih (i + 1) (by omega) c h

theorem pairEmails_drop_phones (phones : List String) (role url : String) :
    ∀ (es : List String) (i : Nat),
    ∀ c ∈ (pairEmails phones role url i es).drop (phones.length - i), c.phone = "" := by
  intro es
  induction es with
  | nil =>
    intro i c hc
    simp [pairEmails] at hc
  | cons e es ih =>
    intro i c hc
    by_cases hi : phones.length ≤ i
    · exact pairEmails_phone_empty_of_ge phones role url (e :: es) i hi c
        (List.mem_of_mem_drop hc)
    · push_neg at hi
      have hk : phones.length - i = (phones.length - (i + 1)) + 1 := by omega
      simp only [pairEmails] at hc
      rw [hk, List.drop_succ_cons] at hc
      exact ih (i + 1) c hc

/-- C2 counterexample: with extracted emails `[a@acme.com, b@acme.com]` and
one extracted phone, the paired branch emits BOTH emails — the excess email
`b@acme.com` appears as an email-only record with empty phone, contradicting
the claim that it is not emitted. -/
theorem extract_contacts_excess_email_is_emitted :
    (extract_contacts_from_page ["a@acme.com", "b@acme.com"] ["1234567"] ""
        "https://acme.com/contact").map (fun c => c.email) =
      ["a@acme.com", "b@acme.com"] ∧
    ({ email := "b@acme.com", phone := "", role := "",
       evidence_urls := ["https://acme.com/contact"] } : Contact) ∈
      extract_contacts_from_page ["a@acme.com", "b@acme.com"] ["1234567"] ""
        "https://acme.com/contact" := by
  constructor
  · decide
  · decide

/-- C2 (amended): in the paired branch with `len(P) <= len(E)`, every email
is emitted exactly once — the first `len(P)` paired with phones by index and
the excess emails as email-only records with empty phone. -/
theorem extract_contacts_paired_branch_emits_all_emails
    (emails phones : List String) (role url : String)
    (hne : emails ≠ []) (hnp : phones ≠ []) (hle : phones.length ≤ emails.length) :
    (extract_contacts_from_page emails phones role url).map (fun c => c.email) = emails ∧
    (extract_contacts_from_page emails phones role url).length = emails.length ∧
    ∀ c ∈ (extract_contacts_from_page emails phones role url).drop phones.length,
      c.phone = "" := by
  have hcond : emails ≠ [] ∧ phones ≠ [] := ⟨hne, hnp⟩
  have hnlt : ¬ emails.length < phones.length := by omega
  simp only [extract_contacts_from_page, if_pos hcond, if_neg hnlt, List.append_nil]
  refine ⟨pairEmails_map_email phones role url emails 0,
    pairEmails_length phones role url emails 0, ?_⟩
  intro c hc
  have hd := pairEmails_drop_phones phones role url emails 0
  simp only [Nat.sub_zero] at hd
  exact hd c hc

/-- C2 witness: the amended pairing law at a concrete two-email, one-phone
page. -/
theorem extract_contacts_paired_branch_emits_all_emails_witness :
    ((["a@acme.com", "b@acme.com"] : List String) ≠ [] ∧
     (["1234567"] : List String) ≠ [] ∧
     (["1234567"] : List String).length ≤ (["a@acme.com", "b@acme.com"] : List String).length) ∧
    ((extract_contacts_from_page ["a@acme.com", "b@acme.com"] ["1234567"] "pms"
        "https://acme.com/c").map (fun c => c.email) = ["a@acme.com", "b@acme.com"] ∧
     (extract_contacts_from_page ["a@acme.com", "b@acme.com"] ["1234567"] "pms"
        "https://acme.com/c").length = 2 ∧
     ∀ c ∈ (extract_contacts_from_page ["a@acme.com", "b@acme.com"] ["1234567"] "pms"
        "https://acme.com/c").drop 1, c.phone = "") :=
  ⟨⟨by decide, by decide, by decide⟩,
   extract_contacts_paired_branch_emits_all_emails ["a@acme.com", "b@acme.com"] ["1234567"]
     "pms" "https://acme.com/c" (by decide) (by decide) (by decide)⟩

/-! ## discovery.py : search query generation -/

/-- The fixed template list `SEARCH_QUERIES` from `discovery.py`. -/
def SEARCH_QUERIES : List String :=
  ["site:{domain} \"contact us\"",
   "site:{domain} \"registered office\"",
   "site:{domain} \"email\"",
   "site:{domain} \"phone\"",
   "site:{domain} \"about us\"",
   "site:{domain} \"management committee\"",
   "site:{domain} \"AMFI\"",
   "\"Association of Mutual Funds in India\" email",
   "\"Association of Mutual Funds in India\" contact"]

/-- Model of `template.format(domain=domain)`: replace every occurrence of
the placeholder (written with escaped braces) by `d`. -/
def substDomainChars (d : List Char) : List Char → List Char
  | '\x7b' :: 'd' :: 'o' :: 'm' :: 'a' :: 'i' :: 'n' :: '\x7d' :: rest =>
    d ++ substDomainChars d rest
  | c :: rest => c :: substDomainChars d rest
  | [] => []

/-- Model of `template.format(domain=domain)` on strings. -/
def pyFormatDomain (template domain : String) : String :=
  ⟨substDomainChars domain.data template.data⟩

/-- Model of `template.format(company_name=company_name)`. -/
def substCompanyChars (n : List Char) : List Char → List Char
  | '\x7b' :: 'c' :: 'o' :: 'm' :: 'p' :: 'a' :: 'n' :: 'y' :: '_' :: 'n' :: 'a' :: 'm' :: 'e' :: '\x7d' :: rest =>
    n ++ substCompanyChars n rest
  | c :: rest => c :: substCompanyChars n rest
  | [] => []

/-- Model of `template.format(company_name=company_name)` on strings. -/
def pyFormatCompany (template company_name : String) : String :=
  ⟨substCompanyChars company_name.data template.data⟩

/-- Embedding of `discovery.generate_search_queries`. -/
def generate_search_queries (domain company_name : String) : List String :=
  SEARCH_QUERIES.foldl (fun queries template =>
    if pyIn "{domain}" template then queries ++ [pyFormatDomain template domain]
    else if pyIn "{company_name}" template then
      if company_name ≠ "" then queries ++ [pyFormatCompany template company_name]
      else queries
    else queries ++ [template]) []

/-- C8 counterexample: with the empty (malformed) domain the domain-requiring
templates are not skipped — the first returned query still carries a `site:`
clause, and all nine templates are returned. -/
theorem generate_search_queries_empty_domain_not_skipped :
    pyIn "site:" ((generate_search_queries "" "").getD 0 "") = true ∧
    (generate_search_queries "" "").length = 9 := by
  constructor
  · decide
  · decide

/-- C8 (amended): `generate_search_queries` never validates the domain — for
every domain (valid, empty or dot-free) and every company name, it returns
exactly the nine templates with `{domain}` substituted; no template mentions
`{company_name}`, so the output is independent of the company name. -/
theorem generate_search_queries_formats_all_templates (domain company_name : String) :
    generate_search_queries domain company_name =
      ["site:" ++ domain ++ " \"contact us\"",
       "site:" ++ domain ++ " \"registered office\"",
       "site:" ++ domain ++ " \"email\"",
       "site:" ++ domain ++ " \"phone\"",
       "site:" ++ domain ++ " \"about us\"",
       "site:" ++ domain ++ " \"management committee\"",
       "site:" ++ domain ++ " \"AMFI\"",
       "\"Association of Mutual Funds in India\" email",
       "\"Association of Mutual Funds in India\" contact"] := rfl

/-! ## discovery.py / evaluator.py : URL scoring and the domain gate

`urlparse(url).netloc` is embedded faithfully for the fragment the code
relies on: an optional `scheme:` head (first char alphabetic, all scheme
chars, colon at a positive index) is stripped; if the remainder starts with
`//`, the netloc is everything up to the first `/`, `?` or `#`; otherwise it
is empty. -/

/-- Characters allowed in a URL scheme (`urllib.parse.scheme_chars`). -/
def schemeChar (c : Char) : Bool :=
  c.isAlpha || c.isDigit || c = '+' || c = '-' || c = '.'

/-- Index of the first `:` in a character list. -/
def findColon : List Char → Option Nat
  | [] => none
  | c :: cs => if c = ':' then some 0 else (findColon cs).map (· + 1)

/-- Strip a valid `scheme:` head, as `urllib.parse.urlsplit` does. -/
def dropScheme (cs : List Char) : List Char :=
  match findColon cs with
  | some i =>
    if 0 < i ∧ (cs.take i).all schemeChar = true ∧ (cs.headD ' ').isAlpha = true then
      cs.drop (i + 1)
    else cs
  | none => cs

/-- Characters ending the netloc (`urllib.parse._splitnetloc`). -/
def urlDelim (c : Char) : Bool := c = '/' || c = '?' || c = '#'

/-- The netloc of a URL as a character list. -/
def netlocChars (cs : List Char) : List Char :=
  let rest := dropScheme cs
  if rest.take 2 = ['/', '/'] then (rest.drop 2).takeWhile (fun c => !urlDelim c)
  else []

/-- Embedding of `urllib.parse.urlparse(url).netloc`. -/
def netloc (s : String) : String := ⟨netlocChars s.data⟩

/-! ### Commutation of `netloc` with ASCII lower-casing -/

theorem lowerChar_mem_or (c : Char) :
    lowerChar c = c ∨ ∃ p, p ∈ upperLowerTable ∧ c = p.1 ∧ lowerChar c = p.2 := by
  unfold lowerChar
  cases h : upperLowerTable.find? (fun p => p.1 = c) with
  | none => exact Or.inl rfl
  | some p =>
    right
    refine ⟨p, List.mem_of_find?_eq_some h, ?_, rfl⟩
    have h1 := List.find?_some h
    simp only [decide_eq_true_eq] at h1
    exact h1.symm

theorem lowerChar_eq_nonalpha {d : Char} (hd : d.isAlpha = false) (c : Char) :
    (lowerChar c = d) ↔ (c = d) := by
  rcases lowerChar_mem_or c with h | ⟨p, hp, hc, he⟩
  · rw [h]
  · subst hc
    rw [he]
    fin_cases hp <;>
      exact ⟨fun hh => absurd hd (hh ▸ by decide), fun hh => absurd hd (hh ▸ by decide)⟩

theorem lowerChar_scheme (c : Char) : schemeChar (lowerChar c) = schemeChar c := by
  rcases lowerChar_mem_or c with h | ⟨p, hp, hc, he⟩
  · rw [h]
  · subst hc
    rw [he]
    fin_cases hp <;> decide

theorem lowerChar_alpha (c : Char) : (lowerChar c).isAlpha = c.isAlpha := by
  rcases lowerChar_mem_or c with h | ⟨p, hp, hc, he⟩
  · rw [h]
  · subst hc
    rw [he]
    fin_cases hp <;> decide

theorem lowerChar_idem (c : Char) : lowerChar (lowerChar c) = lowerChar c := by
  rcases lowerChar_mem_or c with h | ⟨p, hp, hc, he⟩
  · rw [h, h]
  · subst hc
    rw [he]
    fin_cases hp <;> decide

theorem lowerChar_urlDelim (c : Char) : urlDelim (lowerChar c) = urlDelim c := by
  simp only [urlDelim]
  rw [decide_eq_decide.mpr (lowerChar_eq_nonalpha (d := '/') (by decide) c),
    decide_eq_decide.mpr (lowerChar_eq_nonalpha (d := '?') (by decide) c),
    decide_eq_decide.mpr (lowerChar_eq_nonalpha (d := '#') (by decide) c)]

theorem findColon_map_lowerChar (cs : List Char) :
    findColon (cs.map lowerChar) = findColon cs := by
  induction cs with
  | nil => rfl
  | cons c cs ih =>
    simp only [List.map_cons, findColon, ih]
    by_cases h : c = ':'
    · rw [if_pos ((lowerChar_eq_nonalpha (by decide) c).mpr h), if_pos h]
    · rw [if_neg (fun hh => h ((lowerChar_eq_nonalpha (by decide) c).mp hh)), if_neg h]

theorem all_schemeChar_map (cs : List Char) :
    (cs.map lowerChar).all schemeChar = cs.all schemeChar := by
  induction cs with
  | nil => rfl
  | cons c cs ih => simp [lowerChar_scheme c, ih]

theorem headD_map_alpha (cs : List Char) :
    ((cs.map lowerChar).headD ' ').isAlpha = (cs.headD ' ').isAlpha := by
  cases cs with
  | nil => rfl
  | cons c cs => simp [lowerChar_alpha c]

theorem dropScheme_map_lowerChar (cs : List Char) :
    dropScheme (cs.map lowerChar) = (dropScheme cs).map lowerChar := by
  unfold dropScheme
  rw [findColon_map_lowerChar]
  cases h : findColon cs with
  | none => rfl
  | some i =>
    dsimp only
    have hiff : (0 < i ∧ ((cs.map lowerChar).take i).all schemeChar = true ∧
          (((cs.map lowerChar).headD ' ').isAlpha = true)) ↔
        (0 < i ∧ (cs.take i).all schemeChar = true ∧ ((cs.headD ' ').isAlpha = true)) := by
      rw [← List.map_take, all_schemeChar_map, headD_map_alpha]
    by_cases hc : 0 < i ∧ (cs.take i).all schemeChar = true ∧ ((cs.headD ' ').isAlpha = true)
    · rw [if_pos (hiff.mpr hc), if_pos hc, ← List.map_drop]
    · rw [if_neg (fun hh => hc (hiff.mp hh)), if_neg hc]

theorem map_lowerChar_eq_slashes (l : List Char) :
    (l.map lowerChar = ['/', '/']) ↔ (l = ['/', '/']) := by
  cases l with
  | nil => simp
  | cons a t =>
    cases t with
    | nil => simp
    | cons b t2 =>
      simp only [List.map_cons, List.cons.injEq, List.map_eq_nil_iff]
      rw [lowerChar_eq_nonalpha (by decide) a, lowerChar_eq_nonalpha (by decide) b]

theorem takeWhile_notDelim_map (l : List Char) :
    (l.map lowerChar).takeWhile (fun c => !urlDelim c) =
      (l.takeWhile (fun c => !urlDelim c)).map lowerChar := by
  induction l with
  | nil => rfl
  | cons c t ih =>
    simp only [List.map_cons, List.takeWhile_cons, lowerChar_urlDelim c]
    by_cases h : urlDelim c = true
    · simp [h]
    · simp only [Bool.not_eq_true] at h
      simp [h, ih]

theorem netlocChars_map_lowerChar (cs : List Char) :
    netlocChars (cs.map lowerChar) = (netlocChars cs).map lowerChar := by
  unfold netlocChars
  rw [dropScheme_map_lowerChar]
  have hcond : ((dropScheme cs).map lowerChar).take 2 = ['/', '/'] ↔
      (dropScheme cs).take 2 = ['/', '/'] := by
    rw [← List.map_take]
    exact map_lowerChar_eq_slashes _
  by_cases hc : (dropScheme cs).take 2 = ['/', '/']
  · rw [if_pos (hcond.mpr hc), if_pos hc, ← List.map_drop, takeWhile_notDelim_map]
  · rw [if_neg (fun hh => hc (hcond.mp hh)), if_neg hc]
    rfl

theorem netloc_pyLower (s : String) : netloc (pyLower s) = pyLower (netloc s) := by
  simp [netloc, pyLower, netlocChars_map_lowerChar]

theorem pyLower_idem (s : String) : pyLower (pyLower s) = pyLower s := by
  simp only [pyLower, List.map_map]
  apply congrArg
  apply List.map_congr_left
  intro c _
  exact lowerChar_idem c

/-- A search-result candidate dict (url, title, snippet, source, and the
`relevance_score` attached later by `discover_candidate_urls`). -/
structure Candidate where
  url : String := ""
  title : String := ""
  snippet : String := ""
  source : String := ""
  relevance_score : Option Int := none
deriving Repr, DecidableEq, Inhabited

/-- Relevance keywords `CONTACT_KEYWORDS` from `discovery.py`. -/
def CONTACT_KEYWORDS : List String :=
  ["contact", "about", "leadership", "team", "management", "email", "phone"]

/-- Relevance keywords `ROLE_KEYWORDS` from `discovery.py`. -/
def ROLE_KEYWORDS : List String :=
  ["pms", "insurance agent", "investment advisor", "ifa", "mutual fund", "portfolio manager"]

/-- Embedding of `discovery.score_url_candidate`. -/
def score_url_candidate (candidate : Candidate) (target_domain : String) : Int :=
  let url := pyLower candidate.url
  let snippet := pyLower candidate.snippet
  let title := pyLower candidate.title
  let combined_text := pyLower (title ++ " " ++ snippet)
  let candidate_domain := pyLower (netloc url)
  let target_domain_clean := removeWww (pyLower target_domain)
  let candidate_domain_clean := removeWww candidate_domain
  if pyIn target_domain_clean candidate_domain_clean = false ∧
      pyIn candidate_domain_clean target_domain_clean = false then 0
  else
    (if CONTACT_KEYWORDS.any (fun k => pyIn k combined_text) then 30 else 0) +
    (if pyIn "email" combined_text || pyIn "phone" combined_text ||
        pyIn "@" combined_text then 40 else 0) +
    (if ROLE_KEYWORDS.any (fun k => pyIn k combined_text) then 40 else 0)

/-- Embedding of `evaluator.validate_domain_match`. -/
def validate_domain_match (url target_domain : String) : Bool :=
  let url_domain := removeWww (pyLower (netloc url))
  let target_clean := removeWww (pyLower target_domain)
  pyIn target_clean url_domain || pyIn url_domain target_clean

/-- Embedding of `evaluator.should_fetch_url`. -/
def should_fetch_url (candidate : Candidate) (target_domain : String) : Bool :=
  let score := candidate.relevance_score.getD 0
  if score < URL_FETCH_THRESHOLD then false
  else if !validate_domain_match candidate.url target_domain then false
  else true

/-- Follows the claim's wording only (not the code): strip one LEADING
`www.` prefix; the code's `str.replace('www.', '')` removes every
occurrence instead. -/
def stripLeadingWww (s : String) : String :=
  match s.data with
  | 'w' :: 'w' :: 'w' :: '.' :: rest => ⟨rest⟩
  | _ => s

/-- C5 counterexample: for the candidate URL `http://a.www.b.com` against
target `a.b.com`, the claim's normalisation (lower-case, strip one leading
`www.`) leaves hosts with no substring relation, yet the code — which
removes EVERY `www.` occurrence — scores the candidate 70 and fetches it. -/
theorem score_url_candidate_gate_counterexample :
    (pyIn (stripLeadingWww (pyLower "a.b.com"))
        (stripLeadingWww (pyLower (netloc (pyLower "http://a.www.b.com")))) = false ∧
     pyIn (stripLeadingWww (pyLower (netloc (pyLower "http://a.www.b.com"))))
        (stripLeadingWww (pyLower "a.b.com")) = false) ∧
    score_url_candidate
      { url := "http://a.www.b.com", title := "email", snippet := "", source := "google",
        relevance_score := some 70 } "a.b.com" = 70 ∧
    should_fetch_url
      { url := "http://a.www.b.com", title := "email", snippet := "", source := "google",
        relevance_score := some 70 } "a.b.com" = true := by
  refine ⟨⟨by decide, by decide⟩, by decide, by decide⟩

/-- C5 (amended): with the code's normalisation — lower-casing and removing
every occurrence of `www.` — a candidate whose host shares no substring
relation with the target domain scores exactly 0 and is never fetched,
whatever its title, snippet and stored relevance score. -/
theorem score_url_candidate_domain_gate
    (candidate : Candidate) (target_domain : String)
    (h1 : pyIn (removeWww (pyLower target_domain))
        (removeWww (pyLower (netloc (pyLower candidate.url)))) = false)
    (h2 : pyIn (removeWww (pyLower (netloc (pyLower candidate.url))))
        (removeWww (pyLower target_domain)) = false) :
    score_url_candidate candidate target_domain = 0 ∧
    should_fetch_url candidate target_domain = false := by
  have hclean : removeWww (pyLower (netloc (pyLower candidate.url))) =
      removeWww (pyLower (netloc candidate.url)) := by
    rw [netloc_pyLower, pyLower_idem]
  constructor
  · simp only [score_url_candidate]
    rw [if_pos ⟨h1, h2⟩]
  · rw [hclean] at h1 h2
    simp only [should_fetch_url]
    by_cases hs : candidate.relevance_score.getD 0 < URL_FETCH_THRESHOLD
    · rw [if_pos hs]
    · rw [if_neg hs]
      have hv : validate_domain_match candidate.url target_domain = false := by
        simp only [validate_domain_match]
        rw [h1, h2]
        rfl
      rw [hv]
      rfl

/-- C5 witness: the hard domain gate at a concrete off-domain candidate with
a high stored score and contact keywords in the title. -/
theorem score_url_candidate_domain_gate_witness :
    (pyIn (removeWww (pyLower "acme.com"))
        (removeWww (pyLower (netloc (pyLower "http://other.com/contact")))) = false ∧
     pyIn (removeWww (pyLower (netloc (pyLower "http://other.com/contact"))))
        (removeWww (pyLower "acme.com")) = false) ∧
    (score_url_candidate
      { url := "http://other.com/contact", title := "email contact phone", snippet := "",
        source := "google", relevance_score := some 100 } "acme.com" = 0 ∧
     should_fetch_url
      { url := "http://other.com/contact", title := "email contact phone", snippet := "",
        source := "google", relevance_score := some 100 } "acme.com" = false) :=
  ⟨⟨by decide, by decide⟩,
   score_url_candidate_domain_gate
     { url := "http://other.com/contact", title := "email contact phone", snippet := "",
       source := "google", relevance_score := some 100 } "acme.com" (by decide) (by decide)⟩

/-! ## discovery.py : search-result parsers (BeautifulSoup model)

A parsed HTML document is a forest of `Dom` nodes.  `find_all`/`find` are
modelled as pre-order traversals of all element nodes; a `class_` lambda
filter matches an element if SOME individual class string satisfies it, as
BeautifulSoup does for the multi-valued `class` attribute;
`get_text(strip=True)` concatenates the stripped text descendants. -/

/-- A BeautifulSoup node: an element with tag, class list, attributes and
children, or a text node. -/
inductive Dom where
  | elem (tag : String) (classes : List String) (attrs : List (String × String))
      (children : List Dom)
  | text (s : String)

mutual

/-- All element nodes of a subtree, in document (pre-)order. -/
def elemsOfNode : Dom → List Dom
  | .elem t cs as ch => .elem t cs as ch :: elemsOfList ch
  | .text _ => []

/-- All element nodes of a forest, in document order. -/
def elemsOfList : List Dom → List Dom
  | [] => []
  | d :: ds => elemsOfNode d ++ elemsOfList ds

end

mutual

/-- All text-node strings of a subtree, in document order. -/
def textsOfNode : Dom → List String
  | .elem _ _ _ ch => textsOfList ch
  | .text s => [s]

/-- All text-node strings of a forest, in document order. -/
def textsOfList : List Dom → List String
  | [] => []
  | d :: ds => textsOfNode d ++ textsOfList ds

end

/-- Tag name of a node (text nodes have none). -/
def Dom.tagOf : Dom → String
  | .elem t _ _ _ => t
  | .text _ => ""

/-- Class list of a node. -/
def Dom.classesOf : Dom → List String
  | .elem _ cs _ _ => cs
  | .text _ => []

/-- Attribute list of a node. -/
def Dom.attrsOf : Dom → List (String × String)
  | .elem _ _ as _ => as
  | .text _ => []

/-- Children of a node. -/
def Dom.childrenOf : Dom → List Dom
  | .elem _ _ _ ch => ch
  | .text _ => []

/-- Model of `tag.get(attr)`. -/
def getAttr (d : Dom) (attr : String) : Option String :=
  ((d.attrsOf).find? (fun p => p.1 = attr)).map (fun p => p.2)

/-- Model of `tag.find(...)`'s search space: all strict descendants. -/
def descElems (d : Dom) : List Dom := elemsOfList d.childrenOf

/-- ASCII whitespace for Python `str.strip`. -/
def isSpaceChar (c : Char) : Bool :=
  c = ' ' || c = '\t' || c = '\n' || c = '\r' || c = '\x0b' || c = '\x0c'

/-- Model of Python `s.strip()`. -/
def trimChars (l : List Char) : List Char :=
  ((l.dropWhile isSpaceChar).reverse.dropWhile isSpaceChar).reverse

/-- Model of `tag.get_text(strip=True)`. -/
def getTextStrip (d : Dom) : String :=
  ⟨((textsOfNode d).map (fun s => trimChars s.data)).flatten⟩

/-- Model of Python `s.startswith(pre)`. -/
def pyStartsWith (pre s : String) : Bool := pre.data.isPrefixOf s.data

/-- The google result-container filter:
`class_=lambda x: x and ('g' in x.lower() or 'result' in x.lower())`. -/
def isGoogleResultDiv (d : Dom) : Bool :=
  d.tagOf == "div" && d.classesOf.any (fun x =>
    x != "" && (pyIn "g" (pyLower x) || pyIn "result" (pyLower x)))

/-- Predicate of `div.find('a', href=True)`. -/
def isHrefAnchor (d : Dom) : Bool := d.tagOf == "a" && (getAttr d "href").isSome

/-- The per-result-block body of `parse_google_results`. -/
def googleCandidate (div : Dom) : Option Candidate :=
  match (descElems div).find? isHrefAnchor with
  | none => none
  | some link =>
    let url := (getAttr link "href").getD ""
    if !pyStartsWith "http" url then none
    else
      let title_elem :=
        match (descElems div).find? (fun e => e.tagOf == "h3") with
        | some e => some e
        | none => (descElems div).find? (fun e => e.tagOf == "a")
      let title := match title_elem with
        | some e => getTextStrip e
        | none => ""
      let snippet_elem :=
        match (descElems div).find? (fun e => e.tagOf == "span" && e.classesOf.any
            (fun x => x != "" && (pyIn "st" (pyLower x) || pyIn "snippet" (pyLower x)))) with
        | some e => some e
        | none => (descElems div).find? (fun e => e.tagOf == "div" && e.classesOf.any
            (fun x => x != "" && (pyIn "s" (pyLower x) || pyIn "snippet" (pyLower x))))
      let snippet := match snippet_elem with
        | some e => getTextStrip e
        | none => ""
      if url != "" then
        some { url := url, title := title, snippet := snippet, source := "google" }
      else none

/-- Embedding of `discovery.parse_google_results` over a parsed document. -/
def parse_google_results (doc : List Dom) : List Candidate :=
  ((elemsOfList doc).filter isGoogleResultDiv).filterMap googleCandidate

/-- The duckduckgo result-container filter. -/
def isDdgResultDiv (d : Dom) : Bool :=
  d.tagOf == "div" && d.classesOf.any (fun x => x != "" && pyIn "result" (pyLower x))

/-- The per-result-block body of `parse_duckduckgo_results`. -/
def ddgCandidate (div : Dom) : Option Candidate :=
  let link :=
    match (descElems div).find? (fun e => e.tagOf == "a" && e.classesOf.any
        (fun x => x != "" && (pyIn "result__a" (pyLower x) || pyIn "result__url" (pyLower x)))) with
    | some e => some e
    | none => (descElems div).find? isHrefAnchor
  match link with
  | none => none
  | some link =>
    let url := (getAttr link "href").getD ""
    if !pyStartsWith "http" url then none
    else
      let title := getTextStrip link
      let snippet_elem :=
        match (descElems div).find? (fun e => e.tagOf == "a" && e.classesOf.any
            (fun x => x != "" && pyIn "result__snippet" (pyLower x))) with
        | some e => some e
        | none => (descElems div).find? (fun e => e.tagOf == "div" && e.classesOf.any
            (fun x => x != "" && pyIn "snippet" (pyLower x)))
      let snippet := match snippet_elem with
        | some e => getTextStrip e
        | none => ""
      if url != "" then
        some { url := url, title := title, snippet := snippet, source := "duckduckgo" }
      else none

/-- Embedding of `discovery.parse_duckduckgo_results`. -/
def parse_duckduckgo_results (doc : List Dom) : List Candidate :=
  ((elemsOfList doc).filter isDdgResultDiv).filterMap ddgCandidate

/-- A google results page whose only result block links back to google.com. -/
def googleSelfLinkDoc : List Dom :=
  [.elem "div" ["g"] []
    [.elem "a" [] [("href", "https://www.google.com/search?q=acme")] [.text "More results"]]]

/-- C7 counterexample: `parse_google_results` performs no self-link
filtering — a result block whose URL points back into google.com yields a
candidate with that URL. -/
theorem parse_google_results_keeps_self_links :
    (parse_google_results googleSelfLinkDoc).map (fun c => c.url) =
      ["https://www.google.com/search?q=acme"] ∧
    pyIn "google.com" ((parse_google_results googleSelfLinkDoc).getD 0 default).url = true := by
  constructor
  · decide
  · decide

/-- C7 (amended): every candidate either parser returns has an absolute URL
(it starts with `http`); the parsers do NOT filter links pointing back into
the search engine's own domain (see the counterexample). -/
theorem parse_results_urls_absolute :
    (∀ (doc : List Dom) (c : Candidate), c ∈ parse_google_results doc →
      pyStartsWith "http" c.url = true) ∧
    (∀ (doc : List Dom) (c : Candidate), c ∈ parse_duckduckgo_results doc →
      pyStartsWith "http" c.url = true) := by
  constructor
  · intro doc c h
    obtain ⟨div, _, hc⟩ := List.mem_filterMap.mp h
    unfold googleCandidate at hc
    cases hfind : (descElems div).find? isHrefAnchor with
    | none => rw [hfind] at hc; cases hc
    | some link =>
      rw [hfind] at hc
      simp only at hc
      by_cases hurl : pyStartsWith "http" ((getAttr link "href").getD "") = true
      · rw [if_neg (by simp [hurl])] at hc
        split at hc
        · rw [Option.some.injEq] at hc
          rw [← hc]
          exact hurl
        · cases hc
      · rw [if_pos (by simp [Bool.not_eq_true] at hurl ⊢; exact hurl)] at hc
        cases hc
  · intro doc c h
    obtain ⟨div, _, hc⟩ := List.mem_filterMap.mp h
    unfold ddgCandidate at hc
    cases hlink : (match (descElems div).find? (fun e => e.tagOf == "a" && e.classesOf.any
        (fun x => x != "" && (pyIn "result__a" (pyLower x) || pyIn "result__url" (pyLower x)))) with
      | some e => some e
      | none => (descElems div).find? isHrefAnchor) with
    | none => rw [hlink] at hc; cases hc
    | some link =>
      rw [hlink] at hc
      simp only at hc
      by_cases hurl : pyStartsWith "http" ((getAttr link "href").getD "") = true
      · rw [if_neg (by simp [hurl])] at hc
        split at hc
        · rw [Option.some.injEq] at hc
          rw [← hc]
          exact hurl
        · cases hc
      · rw [if_pos (by simp [Bool.not_eq_true] at hurl ⊢; exact hurl)] at hc
        cases hc

/-- C7 witness: the absolute-URL law at the concrete self-link document. -/
theorem parse_results_urls_absolute_witness :
    pyStartsWith "http" "https://www.google.com/search?q=acme" = true :=
  parse_results_urls_absolute.1 googleSelfLinkDoc
    { url := "https://www.google.com/search?q=acme", title := "More results", snippet := "",
      source := "google" } (by decide)
